import Mathlib

/-!
Verification of the directory synchronizer
(src/file-system-projects/directory-sync/directory_synchronizer.py).

The Python classes and functions are shallowly embedded as Lean
definitions.  The filesystem is modelled explicitly as a finite map from
absolute path strings to file data, together with the set of existing
directories, the set of paths on which read or write operations raise
(badPaths, modelling permission and read errors, the source of the
OSError and IOError exceptions the Python code catches), and the set of
paths on which stat raises (statBad).  Machine-level details are
represented by abstract fields: a stored digest stands for the MD5
digest of the file content (two files have equal digests exactly when
the field values are equal), modification times are exact numbers, and
wall clocks are explicit parameters.
-/

namespace DirSync

/-- Result shape of the method named with the words get, file and info:
one entry of a scanned catalog holding the relative path, size, mtime,
content hash and absolute path of a file. -/
structure FileInfo where
  path : String
  size : Nat
  mtime : Int
  hash : String
  fullPath : String
deriving Repr, DecidableEq

/-- Embeds the SyncAction enum of the Python source, plus the
bare-string action tag rename_target that the conflict resolver emits
for the keep-both choice (in Python it is a plain str, not an enum
member). -/
inductive ActionKind where
  | copyToTarget
  | copyToSource
  | updateTarget
  | updateSource
  | deleteFromTarget
  | deleteFromSource
  | conflict
  | renameTarget
deriving Repr, DecidableEq

/-- Embeds the action dictionaries built by the differencer and the
conflict resolver and annotated by sync: keys action, path, new_path
(keep-both rename only), source_info, target_info, timestamp, status. -/
structure ActionRec where
  action : ActionKind
  path : String
  newPath : Option String := none
  sourceInfo : Option FileInfo := none
  targetInfo : Option FileInfo := none
  timestamp : Option Nat := none
  status : Option String := none
deriving Repr, DecidableEq

/-- Embeds a catalog as returned by the directory scan: a mapping from
relative path to file info, given as an association list (a Python dict
has unique keys; lookups below take the first match). -/
abbrev Catalog := List (String × FileInfo)

/-- Embeds the per-path classification inside the differencer loop
body: the cascade of if and elif branches over presence, hash
inequality and mtime comparison (lines 84-127 of the source). -/
def actionForPath (rel : String) (si ti : Option FileInfo) : Option ActionRec :=
  match si, ti with
  | some s, none =>
      some { action := .copyToTarget, path := rel,
             sourceInfo := some s, targetInfo := none }
  | none, some t =>
      some { action := .copyToSource, path := rel,
             sourceInfo := none, targetInfo := some t }
  | some s, some t =>
      if s.hash ≠ t.hash then
        if s.mtime > t.mtime then
          some { action := .updateTarget, path := rel,
                 sourceInfo := some s, targetInfo := some t }
        else if t.mtime > s.mtime then
          some { action := .updateSource, path := rel,
                 sourceInfo := some s, targetInfo := some t }
        else
          some { action := .conflict, path := rel,
                 sourceInfo := some s, targetInfo := some t }
      else none
  | none, none => none

/-- Embeds the differencer: iterate over the union of the two key sets
(all_paths, a Python set, here deduplicated; its iteration order is
unspecified in Python and one admissible order is fixed here) and
append the classification of each path. -/
def determineSyncActions (sourceFiles targetFiles : Catalog) : List ActionRec :=
  let allPaths := (sourceFiles.map Prod.fst ++ targetFiles.map Prod.fst).dedup
  allPaths.filterMap fun rel =>
    actionForPath rel (sourceFiles.lookup rel) (targetFiles.lookup rel)

/-- Actions of a plan that touch a given relative path. -/
def actionsFor (p : String) (l : List ActionRec) : List ActionRec :=
  l.filter fun a => decide (a.path = p)

/-- Stored data of one file of the modelled filesystem: size, mtime and
the digest of its content. -/
structure FileData where
  size : Nat
  mtime : Int
  digest : String
deriving Repr, DecidableEq

/-- Modelled filesystem state: the regular files (absolute path to
data), the existing directories, the paths whose read or write raises
OSError or IOError, and the paths whose stat raises. -/
structure FS where
  files : List (String × FileData)
  dirs : List String
  badPaths : List String
  statBad : List String
deriving Repr, DecidableEq

/-- Embeds Path joining: base slash rel. -/
def pathJoin (base rel : String) : String := base ++ "/" ++ rel

/-- Splits a character list at the separator character. -/
def splitComps : List Char → List Char → List String
  | [], acc => [String.mk acc.reverse]
  | c :: cs, acc =>
      if c = '/' then String.mk acc.reverse :: splitComps cs []
      else splitComps cs (c :: acc)

/-- Components of a path (the parts attribute of a Path). -/
def pathComponents (p : String) : List String :=
  splitComps p.data []

/-- Joins path components with the separator. -/
def joinComps : List String → String
  | [] => ""
  | [x] => x
  | x :: xs => x ++ "/" ++ joinComps xs

/-- Embeds the parent attribute of a Path: everything before the last
separator. -/
def parentOf (p : String) : String :=
  joinComps ((pathComponents p).dropLast)

/-- Every directory mkdir with parents set has to create for a path:
each nonempty prefix of its components, the path itself included. -/
def ancestors (p : String) : List String :=
  ((pathComponents p).inits.drop 1).map joinComps

/-- Embeds the hashing helper on the modelled filesystem: reading a
path in badPaths raises mid-digest and the method returns the empty
string sentinel; otherwise the digest of the stored content. -/
def fileHash (fs : FS) (p : String) (d : FileData) : String :=
  if p ∈ fs.badPaths then "" else d.digest

/-- Embeds the directory scan: when the root does not exist the result
is the empty catalog; otherwise every regular file under the root whose
stat does not raise is catalogued under its relative path, with the
hash computed by the hashing helper. -/
def scanDirectory (fs : FS) (root : String) : Catalog :=
  if root ∈ fs.dirs then
    fs.files.filterMap fun e =>
      if (root ++ "/").data.isPrefixOf e.1.data then
        if e.1 ∈ fs.statBad then none
        else
          let rel := String.mk (e.1.data.drop (root.length + 1))
          some (rel, { path := rel, size := e.2.size, mtime := e.2.mtime,
                       hash := fileHash fs e.1 e.2, fullPath := e.1 })
      else none
  else []

/-- Overwriting update of the modelled file map. -/
def setFile (p : String) (d : FileData) (files : List (String × FileData)) :
    List (String × FileData) :=
  (p, d) :: files.filter fun e => decide (e.1 ≠ p)

/-- Embeds mkdir with parents and exist_ok set: fails (raises) when a
needed directory is unwritable, otherwise records every missing
ancestor directory as existing. -/
def mkdirParents (p : String) (fs : FS) : Option FS :=
  if (ancestors p).any (fun d => fs.badPaths.contains d) then none
  else some { fs with
    dirs := fs.dirs ++ (ancestors p).filter fun d => !(fs.dirs.contains d) }

/-- Embeds copy2: raises when either endpoint is unreadable or
unwritable, when the donor file is missing, or when the destination
parent directory does not exist; otherwise copies content and metadata
onto the destination path. -/
def copy2 (src dst : String) (fs : FS) : Option FS :=
  if fs.badPaths.contains src || fs.badPaths.contains dst then none
  else
    match fs.files.lookup src with
    | none => none
    | some d =>
        if fs.dirs.contains (parentOf dst) then
          some { fs with files := setFile dst d fs.files }
        else none

/-- Embeds the single-action executor: the four SyncAction branches
(the two copy branches make the destination parent directory first, the
two update branches call copy2 directly), with any other action kind
falling through every branch and returning True unchanged; an exception
returns False and keeps the mutations already made. -/
def executeAction (source target : String) (a : ActionRec) (fs : FS) :
    Bool × FS :=
  match a.action with
  | .copyToTarget =>
      match mkdirParents (parentOf (pathJoin target a.path)) fs with
      | none => (false, fs)
      | some fs1 =>
          match copy2 (pathJoin source a.path) (pathJoin target a.path) fs1 with
          | none => (false, fs1)
          | some fs2 => (true, fs2)
  | .copyToSource =>
      match mkdirParents (parentOf (pathJoin source a.path)) fs with
      | none => (false, fs)
      | some fs1 =>
          match copy2 (pathJoin target a.path) (pathJoin source a.path) fs1 with
          | none => (false, fs1)
          | some fs2 => (true, fs2)
  | .updateTarget =>
      match copy2 (pathJoin source a.path) (pathJoin target a.path) fs with
      | none => (false, fs)
      | some fs2 => (true, fs2)
  | .updateSource =>
      match copy2 (pathJoin target a.path) (pathJoin source a.path) fs with
      | none => (false, fs)
      | some fs2 => (true, fs2)
  | _ => (true, fs)

/-- Aggregate counts returned by sync. -/
structure Results where
  success : Nat
  failed : Nat
  skipped : Nat
deriving Repr, DecidableEq

/-- Mutable per-run state threaded through sync: the counts, the
modelled filesystem, the wall clock and the in-memory list of executed
actions (the actions attribute of the synchronizer). -/
structure SyncSt where
  results : Results
  fs : FS
  clock : Nat
  log : List ActionRec
deriving Repr, DecidableEq

/-- Annotation a successful action receives in sync: the completion
timestamp and the success status. -/
def stamp (a : ActionRec) (t : Nat) : ActionRec :=
  { a with timestamp := some t, status := some "success" }

/-- Removal of the post-execution annotation, for comparing logged
actions with planned ones. -/
def eraseStamp (a : ActionRec) : ActionRec :=
  { a with timestamp := none, status := none }

/-- Embeds one iteration of the execution loop of sync: on success the
action is stamped and appended to the in-memory log and the success
count grows; on failure only the failed count grows. -/
def syncStep (source target : String) (st : SyncSt) (a : ActionRec) : SyncSt :=
  if (executeAction source target a st.fs).1 then
    { results := { success := st.results.success + 1,
                   failed := st.results.failed,
                   skipped := st.results.skipped },
      fs := (executeAction source target a st.fs).2, clock := st.clock + 1,
      log := st.log ++ [stamp a st.clock] }
  else
    { results := { success := st.results.success,
                   failed := st.results.failed + 1,
                   skipped := st.results.skipped },
      fs := (executeAction source target a st.fs).2, clock := st.clock,
      log := st.log }

/-- Embeds the execution loop of sync over the action list, in list
order. -/
def syncRun (source target : String) (actions : List ActionRec)
    (st : SyncSt) : SyncSt :=
  match actions with
  | [] => st
  | a :: rest => syncRun source target rest (syncStep source target st a)

/-- Embeds sync: a dry run returns counts only, with success equal to
the plan length, touching neither the filesystem nor the log; a real
run starts from fresh zero counts and executes the actions in order. -/
def sync (source target : String) (actions : List ActionRec)
    (dryRun : Bool) (st0 : SyncSt) : SyncSt :=
  if dryRun then
    { st0 with results :=
        { success := actions.length, failed := 0, skipped := 0 } }
  else
    syncRun source target actions
      { st0 with results := { success := 0, failed := 0, skipped := 0 } }

/-- Stamped successful actions of a real run, in execution order,
computed alongside the same filesystem and clock evolution the
execution loop performs: an action contributes one stamped entry
exactly when executing it on the state reached at that point returns
success, and a failing action contributes nothing (its partial
filesystem effects are kept and the clock does not advance, as in the
loop). -/
def successTrace (source target : String) :
    List ActionRec → FS → Nat → List ActionRec
  | [], _, _ => []
  | a :: rest, fs, clock =>
      if (executeAction source target a fs).1 then
        stamp a clock ::
          successTrace source target rest
            (executeAction source target a fs).2 (clock + 1)
      else
        successTrace source target rest
          (executeAction source target a fs).2 clock

/-- String value of an action kind as serialized by the log writer:
the enum value for SyncAction members, str of the tag for the
bare-string rename action. -/
def actionValue : ActionKind → String
  | .copyToTarget => "copy_to_target"
  | .copyToSource => "copy_to_source"
  | .updateTarget => "update_target"
  | .updateSource => "update_source"
  | .deleteFromTarget => "delete_from_target"
  | .deleteFromSource => "delete_from_source"
  | .conflict => "conflict"
  | .renameTarget => "rename_target"

/-- One serialized entry of the persisted sync log. -/
structure LogEntry where
  action : String
  path : String
  timestamp : Option Nat
  status : Option String
deriving Repr, DecidableEq

/-- Projection of an executed action onto its serialized log entry. -/
def toLogEntry (a : ActionRec) : LogEntry :=
  { action := actionValue a.action, path := a.path,
    timestamp := a.timestamp, status := a.status }

/-- The persisted log document: run metadata (timestamp, source root,
target root) plus the serialized executed actions. -/
structure SyncLogData where
  timestamp : Nat
  source : String
  target : String
  actions : List LogEntry
deriving Repr, DecidableEq

/-- Embeds the log writer: serialize the run metadata and the full
in-memory list of executed actions. -/
def saveSyncLog (now : Nat) (source target : String)
    (log : List ActionRec) : SyncLogData :=
  { timestamp := now, source := source, target := target,
    actions := log.map toLogEntry }

/-- Embeds the keep-both branch of the conflict resolver: a rename
action (the bare-string tag) to the backup name built from the path and
the current unix time, followed by an update of the target with the
source version. -/
def keepBothActions (c : ActionRec) (now : Int) : List ActionRec :=
  let backupPath := c.path ++ ".conflict_backup_" ++ toString now
  [ { action := .renameTarget, path := c.path, newPath := some backupPath,
      sourceInfo := c.sourceInfo, targetInfo := c.targetInfo },
    { action := .updateTarget, path := c.path,
      sourceInfo := c.sourceInfo, targetInfo := c.targetInfo } ]

/-- Fresh run state over a given filesystem. -/
def initialSt (fs : FS) : SyncSt :=
  { results := ⟨0, 0, 0⟩, fs := fs, clock := 0, log := [] }

/-! ### Concrete instances used by counterexamples and witnesses -/

/-- Source-side record of a file whose hashing raised: empty digest. -/
def unreadableSrcInfo : FileInfo :=
  { path := "f.txt", size := 4, mtime := 100, hash := "", fullPath := "s/f.txt" }

/-- Target-side record of a file whose hashing raised: empty digest. -/
def unreadableTgtInfo : FileInfo :=
  { path := "f.txt", size := 9, mtime := 200, hash := "", fullPath := "t/f.txt" }

/-- Source catalog record with a readable digest. -/
def readableSrcInfo : FileInfo :=
  { path := "f.txt", size := 4, mtime := 100, hash := "d41d", fullPath := "s/f.txt" }

/-- A conflict record over the path f.txt with differing digests and
equal mtimes, as the differencer emits. -/
def conflictRec : ActionRec :=
  { action := .conflict, path := "f.txt",
    sourceInfo := some { path := "f.txt", size := 3, mtime := 100,
                         hash := "h1", fullPath := "s/f.txt" },
    targetInfo := some { path := "f.txt", size := 3, mtime := 100,
                         hash := "h2", fullPath := "t/f.txt" } }

/-- Filesystem on which the keep-both compound is executed: both
versions of f.txt exist and nothing is unreadable. -/
def keepBothFS : FS :=
  { files := [("s/f.txt", ⟨3, 100, "h1"⟩), ("t/f.txt", ⟨3, 100, "h2"⟩)],
    dirs := ["s", "t"], badPaths := [], statBad := [] }

/-- Filesystem of example scenario 5: the source holds a.txt and
missing/b.txt, and the parent directory for b.txt cannot be created on
the target side (permission denied). -/
def scenarioFS : FS :=
  { files := [("s/a.txt", ⟨5, 100, "ha"⟩), ("s/missing/b.txt", ⟨6, 101, "hb"⟩)],
    dirs := ["s", "s/missing", "t"], badPaths := ["t/missing"], statBad := [] }

/-- Action plan of example scenario 5. -/
def scenarioActions : List ActionRec :=
  [ { action := .copyToTarget, path := "a.txt",
      sourceInfo := some ⟨"a.txt", 5, 100, "ha", "s/a.txt"⟩ },
    { action := .copyToTarget, path := "missing/b.txt",
      sourceInfo := some ⟨"missing/b.txt", 6, 101, "hb", "s/missing/b.txt"⟩ } ]

/-- Filesystem with a source file under a subdirectory whose target
counterpart directory does not exist. -/
def deepUpdateFS : FS :=
  { files := [("s/d/f.txt", ⟨3, 50, "h"⟩)],
    dirs := ["s", "s/d", "t"], badPaths := [], statBad := [] }

/-- An update-target action for the file under the subdirectory. -/
def deepUpdateAction : ActionRec :=
  { action := .updateTarget, path := "d/f.txt",
    sourceInfo := some ⟨"d/f.txt", 3, 50, "h", "s/d/f.txt"⟩,
    targetInfo := some ⟨"d/f.txt", 3, 60, "g", "t/d/f.txt"⟩ }

/-- Small filesystem whose only directory is the source root. -/
def oneRootFS : FS :=
  { files := [("s/x", ⟨1, 1, "h"⟩)], dirs := ["s"],
    badPaths := [], statBad := [] }

/-! ## Theorems -/

/-! ### Association-list lookup facts -/

theorem lookup_eq_none_of_not_mem (l : Catalog) (p : String)
    (h : p ∉ l.map Prod.fst) : l.lookup p = none := by
  induction l with
  | nil => rfl
  | cons kv t ih =>
      simp only [List.map_cons, List.mem_cons, not_or] at h
      have hk : (p == kv.1) = false := by
        simpa using h.1
      simpa [List.lookup, hk] using ih h.2

theorem mem_of_lookup_eq_some (l : Catalog) (p : String) (v : FileInfo)
    (h : l.lookup p = some v) : p ∈ l.map Prod.fst := by
  by_contra hmem
  rw [lookup_eq_none_of_not_mem l p hmem] at h
  exact Option.noConfusion h

/-! ### The plan contains exactly the per-path classification -/

theorem actionForPath_path (rel : String) (si ti : Option FileInfo)
    (a : ActionRec) (h : actionForPath rel si ti = some a) : a.path = rel := by
  cases si <;> cases ti <;>
    simp only [actionForPath] at h
  · exact Option.noConfusion h
  · cases h; rfl
  · cases h; rfl
  · split at h
    · split at h
      · cases h; rfl
      · split at h
        · cases h; rfl
        · cases h; rfl
    · exact Option.noConfusion h

theorem actionsFor_filterMap (f : String → Option ActionRec)
    (hf : ∀ q a, f q = some a → a.path = q) :
    ∀ (L : List String), L.Nodup → ∀ (p : String),
      actionsFor p (L.filterMap f) = if p ∈ L then (f p).toList else [] := by
  intro L
  induction L with
  | nil => intro _ p; simp [actionsFor]
  | cons q L ih =>
      intro hnd p
      have hndL : L.Nodup := hnd.of_cons
      rw [List.filterMap_cons]
      cases hq : f q with
      | none =>
          rw [ih hndL p]
          by_cases hpq : p = q
          · subst hpq
            have hpL : p ∉ L := (List.nodup_cons.mp hnd).1
            simp [hpL, hq]
          · simp [List.mem_cons, hpq]
      | some a =>
          have hpath : a.path = q := hf q a hq
          by_cases hpq : p = q
          · subst hpq
            have hpL : p ∉ L := (List.nodup_cons.mp hnd).1
            have hrest : actionsFor p (L.filterMap f) = [] := by
              rw [ih hndL p]; simp [hpL]
            simp [actionsFor, List.filter_cons, hpath, hq,
              actionsFor] at hrest ⊢
            exact hrest
          · have hnp : (decide (a.path = p)) = false := by
              simp [hpath]; exact fun h => hpq h.symm
            have := ih hndL p
            simp only [actionsFor, List.filter_cons, hnp] at this ⊢
            rw [this]
            simp [List.mem_cons, hpq]

/-- Central lemma: in the emitted plan, the actions touching a path
are exactly the classification of that path from the two catalog
lookups (at most one action). -/
theorem actionsFor_determine (src tgt : Catalog) (p : String) :
    actionsFor p (determineSyncActions src tgt) =
      (actionForPath p (src.lookup p) (tgt.lookup p)).toList := by
  unfold determineSyncActions
  set L := (src.map Prod.fst ++ tgt.map Prod.fst).dedup with hL
  have hnd : L.Nodup := List.nodup_dedup _
  rw [actionsFor_filterMap
        (fun rel => actionForPath rel (src.lookup rel) (tgt.lookup rel))
        (fun q a h => actionForPath_path q _ _ a h) L hnd p]
  by_cases hp : p ∈ L
  · simp [hp]
  · have hmem : p ∉ src.map Prod.fst ∧ p ∉ tgt.map Prod.fst := by
      rw [hL] at hp
      simp only [List.mem_dedup, List.mem_append, not_or] at hp
      exact hp
    rw [lookup_eq_none_of_not_mem src p hmem.1,
        lookup_eq_none_of_not_mem tgt p hmem.2]
    simp [hp, actionForPath]

/-- C1: for every pair of catalogs, the differencer classifies each
path in the union of their keys exactly as the table states: a path
only in the source yields exactly one CopyToTarget action and a path
only in the target exactly one CopyToSource; a path in both with equal
digests yields no action regardless of timestamps; a path in both with
unequal digests yields UpdateTarget when the source mtime is strictly
greater, UpdateSource when the target mtime is strictly greater, and a
Conflict if and only if the timestamps are equal. -/
theorem differencer_classification (src tgt : Catalog) (p : String) :
    (∀ s, src.lookup p = some s → tgt.lookup p = none →
      actionsFor p (determineSyncActions src tgt) =
        [{ action := .copyToTarget, path := p, sourceInfo := some s,
           targetInfo := none }]) ∧
    (∀ t, src.lookup p = none → tgt.lookup p = some t →
      actionsFor p (determineSyncActions src tgt) =
        [{ action := .copyToSource, path := p, sourceInfo := none,
           targetInfo := some t }]) ∧
    (∀ s t, src.lookup p = some s → tgt.lookup p = some t →
      s.hash = t.hash →
      actionsFor p (determineSyncActions src tgt) = []) ∧
    (∀ s t, src.lookup p = some s → tgt.lookup p = some t →
      s.hash ≠ t.hash → s.mtime > t.mtime →
      actionsFor p (determineSyncActions src tgt) =
        [{ action := .updateTarget, path := p, sourceInfo := some s,
           targetInfo := some t }]) ∧
    (∀ s t, src.lookup p = some s → tgt.lookup p = some t →
      s.hash ≠ t.hash → t.mtime > s.mtime →
      actionsFor p (determineSyncActions src tgt) =
        [{ action := .updateSource, path := p, sourceInfo := some s,
           targetInfo := some t }]) ∧
    (∀ s t, src.lookup p = some s → tgt.lookup p = some t →
      s.hash ≠ t.hash →
      (actionsFor p (determineSyncActions src tgt) =
        [{ action := .conflict, path := p, sourceInfo := some s,
           targetInfo := some t }] ↔ s.mtime = t.mtime)) := by
  refine ⟨?_, ?_, ?_, ?_, ?_, ?_⟩
  · intro s hs ht
    rw [actionsFor_determine, hs, ht]
    simp [actionForPath]
  · intro t hs ht
    rw [actionsFor_determine, hs, ht]
    simp [actionForPath]
  · intro s t hs ht heq
    rw [actionsFor_determine, hs, ht]
    simp [actionForPath, heq]
  · intro s t hs ht hne hmt
    rw [actionsFor_determine, hs, ht]
    simp [actionForPath, hne, hmt]
  · intro s t hs ht hne hmt
    rw [actionsFor_determine, hs, ht]
    have hnot : ¬ s.mtime > t.mtime := not_lt_of_gt hmt
    simp [actionForPath, hne, hmt, hnot]
  · intro s t hs ht hne
    rw [actionsFor_determine, hs, ht]
    constructor
    · intro h
      by_contra hneq
      rcases lt_or_gt_of_ne hneq with h1 | h1
      · have hns : ¬ s.mtime > t.mtime := not_lt_of_gt h1
        simp [actionForPath, hne, h1, hns] at h
      · simp [actionForPath, hne, h1] at h
    · intro heq
      have h1 : ¬ s.mtime > t.mtime := by rw [heq]; exact lt_irrefl _
      have h2 : ¬ t.mtime > s.mtime := by rw [heq]; exact lt_irrefl _
      simp [actionForPath, hne, h1, h2]

theorem map_path_filterMap (f : String → Option ActionRec)
    (hf : ∀ q a, f q = some a → a.path = q) :
    ∀ L : List String,
      (L.filterMap f).map (fun a => a.path) =
        L.filter fun q => (f q).isSome := by
  intro L
  induction L with
  | nil => rfl
  | cons q L ih =>
      rw [List.filterMap_cons]
      cases hq : f q with
      | none => simp [List.filter_cons, hq, ih]
      | some a => simp [List.filter_cons, hq, ih, hf q a hq]

/-- C7: for every pair of catalogs, the action list produced by the
differencer contains at most one action per relative path: no two
actions in a single emitted plan share the same path. -/
theorem plan_at_most_one_action_per_path (src tgt : Catalog) :
    ((determineSyncActions src tgt).map (fun a => a.path)).Nodup := by
  unfold determineSyncActions
  rw [map_path_filterMap
        (fun rel => actionForPath rel (src.lookup rel) (tgt.lookup rel))
        (fun q a h => actionForPath_path q _ _ a h)]
  exact (List.nodup_dedup _).filter _

/-- C2 counterexample: two records for the same path that both carry
the empty-digest sentinel compare as equal, so the differencer emits no
action and no conflict for that path, against the claim that such a
pair is treated as unconditionally mismatched (here even the
timestamps differ, 100 against 200, and still nothing is emitted). -/
theorem both_empty_digests_counterexample :
    unreadableSrcInfo.hash = "" ∧ unreadableTgtInfo.hash = "" ∧
    unreadableSrcInfo.mtime ≠ unreadableTgtInfo.mtime ∧
    determineSyncActions [("f.txt", unreadableSrcInfo)]
      [("f.txt", unreadableTgtInfo)] = [] :=
  ⟨rfl, rfl, by decide, by decide⟩

/-- C2 (amended): a record whose digest is the empty sentinel is
treated as mismatched against any record with a non-empty digest, and
the differencer then emits exactly one action or conflict for the path;
when both records carry the empty sentinel the digests compare equal
and no action is emitted. -/
theorem empty_digest_mismatch (src tgt : Catalog) (p : String) :
    (∀ s t, src.lookup p = some s → tgt.lookup p = some t →
      s.hash = "" → t.hash ≠ "" →
      ∃ a, actionsFor p (determineSyncActions src tgt) = [a] ∧
        (a.action = .updateTarget ∨ a.action = .updateSource ∨
         a.action = .conflict)) ∧
    (∀ s t, src.lookup p = some s → tgt.lookup p = some t →
      s.hash ≠ "" → t.hash = "" →
      ∃ a, actionsFor p (determineSyncActions src tgt) = [a] ∧
        (a.action = .updateTarget ∨ a.action = .updateSource ∨
         a.action = .conflict)) ∧
    (∀ s t, src.lookup p = some s → tgt.lookup p = some t →
      s.hash = "" → t.hash = "" →
      actionsFor p (determineSyncActions src tgt) = []) := by
  have key : ∀ s t : FileInfo, s.hash ≠ t.hash →
      ∃ a, (actionForPath p (some s) (some t)).toList = [a] ∧
        (a.action = .updateTarget ∨ a.action = .updateSource ∨
         a.action = .conflict) := by
    intro s t hne
    rcases lt_trichotomy s.mtime t.mtime with h | h | h
    · have hns : ¬ s.mtime > t.mtime := not_lt_of_gt h
      exact ⟨{ action := .updateSource, path := p, sourceInfo := some s,
               targetInfo := some t },
             by simp [actionForPath, hne, h, hns], Or.inr (Or.inl rfl)⟩
    · have h1 : ¬ s.mtime > t.mtime := by rw [h]; exact lt_irrefl _
      have h2 : ¬ t.mtime > s.mtime := by rw [h]; exact lt_irrefl _
      exact ⟨{ action := .conflict, path := p, sourceInfo := some s,
               targetInfo := some t },
             by simp [actionForPath, hne, h1, h2], Or.inr (Or.inr rfl)⟩
    · exact ⟨{ action := .updateTarget, path := p, sourceInfo := some s,
               targetInfo := some t },
             by simp [actionForPath, hne, h], Or.inl rfl⟩
  refine ⟨?_, ?_, ?_⟩
  · intro s t hs ht hs0 ht0
    rw [actionsFor_determine, hs, ht]
    exact key s t (by rw [hs0]; exact fun h => ht0 h.symm)
  · intro s t hs ht hs0 ht0
    rw [actionsFor_determine, hs, ht]
    exact key s t (by rw [ht0]; exact hs0)
  · intro s t hs ht hs0 ht0
    rw [actionsFor_determine, hs, ht]
    simp [actionForPath, hs0, ht0]

/-- C8: for every root path that does not exist on the filesystem, the
scanner returns an empty catalog rather than raising or aborting. -/
theorem scan_missing_root_empty (fs : FS) (root : String)
    (h : root ∉ fs.dirs) : scanDirectory fs root = [] := by
  simp [scanDirectory, h]

/-- Witness for C8 at a concrete filesystem whose only directory is the
source root. -/
theorem scan_missing_root_empty_witness :
    "t" ∉ oneRootFS.dirs ∧ scanDirectory oneRootFS "t" = [] :=
  ⟨by decide, scan_missing_root_empty oneRootFS "t" (by decide)⟩

/-! ### Invariants of the execution loop -/

theorem syncStep_skipped (source target : String) (st : SyncSt)
    (a : ActionRec) :
    (syncStep source target st a).results.skipped = st.results.skipped := by
  unfold syncStep
  split <;> rfl

theorem syncStep_sum (source target : String) (st : SyncSt) (a : ActionRec) :
    (syncStep source target st a).results.success +
      (syncStep source target st a).results.failed =
        st.results.success + st.results.failed + 1 := by
  unfold syncStep
  split <;> simp <;> omega

theorem syncRun_skipped (source target : String) :
    ∀ (l : List ActionRec) (st : SyncSt),
      (syncRun source target l st).results.skipped =
        st.results.skipped := by
  intro l
  induction l with
  | nil => intro st; rfl
  | cons a rest ih =>
      intro st
      calc (syncRun source target (a :: rest) st).results.skipped
          = (syncRun source target rest
              (syncStep source target st a)).results.skipped := rfl
        _ = (syncStep source target st a).results.skipped := ih _
        _ = st.results.skipped := syncStep_skipped source target st a

theorem syncRun_sum (source target : String) :
    ∀ (l : List ActionRec) (st : SyncSt),
      (syncRun source target l st).results.success +
        (syncRun source target l st).results.failed =
          st.results.success + st.results.failed + l.length := by
  intro l
  induction l with
  | nil => intro st; simp [syncRun]
  | cons a rest ih =>
      intro st
      have h1 : syncRun source target (a :: rest) st =
          syncRun source target rest (syncStep source target st a) := rfl
      rw [h1, ih, syncStep_sum]
      simp [List.length_cons]
      omega

theorem successTrace_cons_true (source target : String) (a : ActionRec)
    (rest : List ActionRec) (fs : FS) (clock : Nat)
    (h : (executeAction source target a fs).1 = true) :
    successTrace source target (a :: rest) fs clock =
      stamp a clock ::
        successTrace source target rest
          (executeAction source target a fs).2 (clock + 1) := by
  simp only [successTrace]
  rw [h]
  simp

theorem successTrace_cons_false (source target : String) (a : ActionRec)
    (rest : List ActionRec) (fs : FS) (clock : Nat)
    (h : (executeAction source target a fs).1 = false) :
    successTrace source target (a :: rest) fs clock =
      successTrace source target rest
        (executeAction source target a fs).2 clock := by
  simp only [successTrace]
  rw [h]
  simp

theorem syncRun_trace (source target : String) :
    ∀ (l : List ActionRec) (st : SyncSt),
      (syncRun source target l st).log =
        st.log ++ successTrace source target l st.fs st.clock ∧
      (syncRun source target l st).results.success =
        st.results.success +
          (successTrace source target l st.fs st.clock).length := by
  intro l
  induction l with
  | nil =>
      intro st
      exact ⟨by simp [syncRun, successTrace], by simp [syncRun, successTrace]⟩
  | cons a rest ih =>
      intro st
      have hrw : syncRun source target (a :: rest) st =
          syncRun source target rest (syncStep source target st a) := rfl
      obtain ⟨ih1, ih2⟩ := ih (syncStep source target st a)
      cases hE : (executeAction source target a st.fs).1 with
      | true =>
          have hlog : (syncStep source target st a).log =
              st.log ++ [stamp a st.clock] := by
            unfold syncStep; rw [hE]; simp
          have hfs : (syncStep source target st a).fs =
              (executeAction source target a st.fs).2 := by
            unfold syncStep; rw [hE]; simp
          have hclock : (syncStep source target st a).clock =
              st.clock + 1 := by
            unfold syncStep; rw [hE]; simp
          have hsuc : (syncStep source target st a).results.success =
              st.results.success + 1 := by
            unfold syncStep; rw [hE]; simp
          constructor
          · rw [hrw, ih1, hlog, hfs, hclock,
              successTrace_cons_true source target a rest st.fs st.clock hE,
              List.append_assoc]
            rfl
          · rw [hrw, ih2, hsuc, hfs, hclock,
              successTrace_cons_true source target a rest st.fs st.clock hE,
              List.length_cons]
            omega
      | false =>
          have hlog : (syncStep source target st a).log = st.log := by
            unfold syncStep; rw [hE]; simp
          have hfs : (syncStep source target st a).fs =
              (executeAction source target a st.fs).2 := by
            unfold syncStep; rw [hE]; simp
          have hclock : (syncStep source target st a).clock = st.clock := by
            unfold syncStep; rw [hE]; simp
          have hsuc : (syncStep source target st a).results.success =
              st.results.success := by
            unfold syncStep; rw [hE]; simp
          constructor
          · rw [hrw, ih1, hlog, hfs, hclock,
              successTrace_cons_false source target a rest st.fs st.clock hE]
          · rw [hrw, ih2, hsuc, hfs, hclock,
              successTrace_cons_false source target a rest st.fs st.clock hE]

theorem successTrace_stamped (source target : String) :
    ∀ (l : List ActionRec) (fs : FS) (clock : Nat),
      ∀ x ∈ successTrace source target l fs clock,
        x.status = some "success" ∧ x.timestamp.isSome = true := by
  intro l
  induction l with
  | nil => intro fs clock x hx; simp [successTrace] at hx
  | cons a rest ih =>
      intro fs clock x hx
      cases hE : (executeAction source target a fs).1 with
      | true =>
          rw [successTrace_cons_true source target a rest fs clock hE] at hx
          rcases List.mem_cons.mp hx with h | h
          · subst h; exact ⟨rfl, rfl⟩
          · exact ih _ _ x h
      | false =>
          rw [successTrace_cons_false source target a rest fs clock hE] at hx
          exact ih _ _ x hx

theorem successTrace_sublist (source target : String) :
    ∀ (l : List ActionRec) (fs : FS) (clock : Nat),
      ((successTrace source target l fs clock).map eraseStamp).Sublist
        (l.map eraseStamp) := by
  intro l
  induction l with
  | nil => intro fs clock; simp [successTrace]
  | cons a rest ih =>
      intro fs clock
      cases hE : (executeAction source target a fs).1 with
      | true =>
          rw [successTrace_cons_true source target a rest fs clock hE,
            List.map_cons, List.map_cons]
          have heq : eraseStamp (stamp a clock) = eraseStamp a := rfl
          rw [heq]
          exact List.Sublist.cons₂ _ (ih _ _)
      | false =>
          rw [successTrace_cons_false source target a rest fs clock hE,
            List.map_cons]
          exact List.Sublist.cons _ (ih _ _)

/-- C5: for every action list, executing with the dry-run flag set
performs no filesystem mutation and returns counts with success equal
to the length of the action list and failed equal to zero, so a rescan
of either tree after the dry run is identical to a scan before it. -/
theorem dry_run_no_mutation (source target : String)
    (actions : List ActionRec) (st0 : SyncSt) :
    sync source target actions true st0 =
      { st0 with results :=
          { success := actions.length, failed := 0, skipped := 0 } } ∧
    (sync source target actions true st0).fs = st0.fs ∧
    (∀ root, scanDirectory (sync source target actions true st0).fs root =
        scanDirectory st0.fs root) :=
  ⟨rfl, rfl, fun _ => rfl⟩

/-- C10: for every action list, the counts returned by sync satisfy
skipped equal to zero unconditionally, and in a real run success plus
failed equals the length of the action list; no action is ever
classified as skipped by the executor. -/
theorem sync_counts_invariant (source target : String)
    (actions : List ActionRec) (dryRun : Bool) (st0 : SyncSt) :
    (sync source target actions dryRun st0).results.skipped = 0 ∧
    (sync source target actions false st0).results.success +
      (sync source target actions false st0).results.failed =
        actions.length := by
  constructor
  · cases dryRun with
    | true => rfl
    | false =>
        have h : sync source target actions false st0 =
            syncRun source target actions
              { st0 with results :=
                  { success := 0, failed := 0, skipped := 0 } } := rfl
        rw [h, syncRun_skipped]
  · have h : sync source target actions false st0 =
        syncRun source target actions
          { st0 with results :=
              { success := 0, failed := 0, skipped := 0 } } := rfl
    rw [h, syncRun_sum]
    simp

/-- C4: in a real run an execution error on one action is caught and
counted as failed and the run proceeds through the whole list, so
success plus failed always equals the list length; on the two-action
plan of scenario 5 (the parent directory for the second file cannot be
created) the counts are one success and one failure, the first file is
copied and the second is not. -/
theorem execution_failure_isolation :
    (∀ (source target : String) (actions : List ActionRec) (st0 : SyncSt),
      (sync source target actions false st0).results.success +
        (sync source target actions false st0).results.failed =
          actions.length) ∧
    (sync "s" "t" scenarioActions false (initialSt scenarioFS)).results =
      ⟨1, 1, 0⟩ ∧
    (sync "s" "t" scenarioActions false
        (initialSt scenarioFS)).fs.files.lookup "t/a.txt" =
      some ⟨5, 100, "ha"⟩ ∧
    (sync "s" "t" scenarioActions false
        (initialSt scenarioFS)).fs.files.lookup "t/missing/b.txt" = none := by
  refine ⟨?_, by decide, by decide, by decide⟩
  intro source target actions st0
  have h : sync source target actions false st0 =
      syncRun source target actions
        { st0 with results :=
            { success := 0, failed := 0, skipped := 0 } } := rfl
  rw [h, syncRun_sum]
  simp

/-- C6: in a real run the final in-memory log is the initial log plus
exactly the stamped successful actions of the run, in execution order:
the appended list is the success trace, which by its two step equations
(stated here) appends an action exactly when its execution succeeds and
appends nothing when it fails, so every successfully applied action and
only those are appended, each stamped with a completion timestamp and
success status; the number of appended entries is the success count,
the appended entries follow the plan order, and the persisted record
serializes exactly this list of executed actions plus the run metadata
(timestamp, source root, target root). -/
theorem sync_success_log (source target : String)
    (actions : List ActionRec) (st0 : SyncSt) (now : Nat) :
    (sync source target actions false st0).log =
      st0.log ++ successTrace source target actions st0.fs st0.clock ∧
    (∀ (a : ActionRec) (rest : List ActionRec) (fs : FS) (clock : Nat),
      (executeAction source target a fs).1 = true →
        successTrace source target (a :: rest) fs clock =
          stamp a clock ::
            successTrace source target rest
              (executeAction source target a fs).2 (clock + 1)) ∧
    (∀ (a : ActionRec) (rest : List ActionRec) (fs : FS) (clock : Nat),
      (executeAction source target a fs).1 = false →
        successTrace source target (a :: rest) fs clock =
          successTrace source target rest
            (executeAction source target a fs).2 clock) ∧
    (successTrace source target actions st0.fs st0.clock).length =
      (sync source target actions false st0).results.success ∧
    (∀ a ∈ successTrace source target actions st0.fs st0.clock,
      a.status = some "success" ∧ a.timestamp.isSome = true) ∧
    ((successTrace source target actions st0.fs st0.clock).map
        eraseStamp).Sublist (actions.map eraseStamp) ∧
    saveSyncLog now source target (sync source target actions false st0).log =
      { timestamp := now, source := source, target := target,
        actions := (sync source target actions false st0).log.map
          toLogEntry } := by
  have h : sync source target actions false st0 =
      syncRun source target actions
        { st0 with results :=
            { success := 0, failed := 0, skipped := 0 } } := rfl
  obtain ⟨h1, h2⟩ := syncRun_trace source target actions
    { st0 with results := { success := 0, failed := 0, skipped := 0 } }
  refine ⟨?_, ?_, ?_, ?_, ?_, ?_, rfl⟩
  · rw [h]
    exact h1
  · intro a rest fs clock hE
    exact successTrace_cons_true source target a rest fs clock hE
  · intro a rest fs clock hE
    exact successTrace_cons_false source target a rest fs clock hE
  · rw [h, h2]
    simp
  · exact successTrace_stamped source target actions st0.fs st0.clock
  · exact successTrace_sublist source target actions st0.fs st0.clock

/-- C3 (code evaluation at the failing input): executing the keep-both
compound that the conflict resolver produces does not rename anything:
the rename action matches no branch of the single-action executor and
silently counts as a success, so the run reports two successes, no
backup file exists afterwards, and the target version of the file has
been overwritten by the source version (the kept-both promise is
broken). -/
theorem keep_both_compound_is_broken :
    keepBothActions conflictRec 111 =
      [ { action := .renameTarget, path := "f.txt",
          newPath := some "f.txt.conflict_backup_111",
          sourceInfo := conflictRec.sourceInfo,
          targetInfo := conflictRec.targetInfo },
        { action := .updateTarget, path := "f.txt",
          sourceInfo := conflictRec.sourceInfo,
          targetInfo := conflictRec.targetInfo } ] ∧
    (sync "s" "t" (keepBothActions conflictRec 111) false
        (initialSt keepBothFS)).results = ⟨2, 0, 0⟩ ∧
    (sync "s" "t" (keepBothActions conflictRec 111) false
        (initialSt keepBothFS)).fs.files.lookup
      "t/f.txt.conflict_backup_111" = none ∧
    (sync "s" "t" (keepBothActions conflictRec 111) false
        (initialSt keepBothFS)).fs.files.lookup "t/f.txt" =
      some ⟨3, 100, "h1"⟩ :=
  ⟨by decide, by decide, by decide, by decide⟩

/-- C9 counterexample: an UpdateTarget action whose destination parent
directory is absent fails instead of creating the directory, and the
executor creates no directory at all, against the claim that every
action first ensures the destination parent directory exists. -/
theorem update_target_no_mkdir_counterexample :
    "t/d" ∉ deepUpdateFS.dirs ∧
    (sync "s" "t" [deepUpdateAction] false
        (initialSt deepUpdateFS)).results = ⟨0, 1, 0⟩ ∧
    "t/d" ∉ (sync "s" "t" [deepUpdateAction] false
        (initialSt deepUpdateFS)).fs.dirs ∧
    (sync "s" "t" [deepUpdateAction] false
        (initialSt deepUpdateFS)).fs.files.lookup "t/d/f.txt" = none :=
  ⟨by decide, by decide, by decide, by decide⟩

theorem copy2_dirs (src dst : String) (fs fs' : FS)
    (h : copy2 src dst fs = some fs') : fs'.dirs = fs.dirs := by
  unfold copy2 at h
  split at h
  · exact Option.noConfusion h
  · cases hl : fs.files.lookup src with
    | none => rw [hl] at h; exact Option.noConfusion h
    | some d =>
        rw [hl] at h
        dsimp only at h
        by_cases hc : fs.dirs.contains (parentOf dst) = true
        · rw [if_pos hc] at h
          have hinj := Option.some.inj h
          rw [← hinj]
        · rw [if_neg hc] at h
          exact Option.noConfusion h

theorem copy2_parent (src dst : String) (fs fs' : FS)
    (h : copy2 src dst fs = some fs') : parentOf dst ∈ fs.dirs := by
  unfold copy2 at h
  split at h
  · exact Option.noConfusion h
  · cases hl : fs.files.lookup src with
    | none => rw [hl] at h; exact Option.noConfusion h
    | some d =>
        rw [hl] at h
        dsimp only at h
        by_cases hc : fs.dirs.contains (parentOf dst) = true
        · simpa using hc
        · rw [if_neg hc] at h
          exact Option.noConfusion h

theorem executeAction_updateTarget (source target : String) (a : ActionRec)
    (fs : FS) (h : a.action = .updateTarget) :
    executeAction source target a fs =
      match copy2 (pathJoin source a.path) (pathJoin target a.path) fs with
      | none => (false, fs)
      | some fs2 => (true, fs2) := by
  unfold executeAction
  rw [h]

theorem executeAction_updateSource (source target : String) (a : ActionRec)
    (fs : FS) (h : a.action = .updateSource) :
    executeAction source target a fs =
      match copy2 (pathJoin target a.path) (pathJoin source a.path) fs with
      | none => (false, fs)
      | some fs2 => (true, fs2) := by
  unfold executeAction
  rw [h]

theorem executeAction_copyToTarget (source target : String) (a : ActionRec)
    (fs : FS) (h : a.action = .copyToTarget) :
    executeAction source target a fs =
      match mkdirParents (parentOf (pathJoin target a.path)) fs with
      | none => (false, fs)
      | some fs1 =>
          match copy2 (pathJoin source a.path) (pathJoin target a.path)
              fs1 with
          | none => (false, fs1)
          | some fs2 => (true, fs2) := by
  unfold executeAction
  rw [h]

theorem executeAction_copyToSource (source target : String) (a : ActionRec)
    (fs : FS) (h : a.action = .copyToSource) :
    executeAction source target a fs =
      match mkdirParents (parentOf (pathJoin source a.path)) fs with
      | none => (false, fs)
      | some fs1 =>
          match copy2 (pathJoin target a.path) (pathJoin source a.path)
              fs1 with
          | none => (false, fs1)
          | some fs2 => (true, fs2) := by
  unfold executeAction
  rw [h]

/-- C9 (amended): only the two copy kinds first ensure the destination
parent directory, creating it recursively if absent, before copying;
the two update kinds call the copy primitive directly and never create
any directory. -/
theorem parent_dir_policy (source target : String) (a : ActionRec)
    (fs : FS) (b : Bool) (fs' : FS) :
    (executeAction source target a fs = (b, fs') →
      a.action = .updateTarget ∨ a.action = .updateSource →
      fs'.dirs = fs.dirs) ∧
    (executeAction source target a fs = (b, fs') → b = true →
      a.action = .copyToTarget →
      parentOf (pathJoin target a.path) ∈ fs'.dirs) ∧
    (executeAction source target a fs = (b, fs') → b = true →
      a.action = .copyToSource →
      parentOf (pathJoin source a.path) ∈ fs'.dirs) := by
  refine ⟨?_, ?_, ?_⟩
  · rintro hE (h | h)
    · rw [executeAction_updateTarget source target a fs h] at hE
      split at hE
      · injection hE with h1 h2
        rw [← h2]
      · next fs2 hc =>
          injection hE with h1 h2
          rw [← h2]
          exact copy2_dirs _ _ _ _ hc
    · rw [executeAction_updateSource source target a fs h] at hE
      split at hE
      · injection hE with h1 h2
        rw [← h2]
      · next fs2 hc =>
          injection hE with h1 h2
          rw [← h2]
          exact copy2_dirs _ _ _ _ hc
  · intro hE hb h
    rw [executeAction_copyToTarget source target a fs h] at hE
    split at hE
    · injection hE with h1 h2
      rw [← h1] at hb
      exact Bool.noConfusion hb
    · next fs1 hm =>
        split at hE
        · injection hE with h1 h2
          rw [← h1] at hb
          exact Bool.noConfusion hb
        · next fs2 hc =>
            injection hE with h1 h2
            rw [← h2, copy2_dirs _ _ _ _ hc]
            exact copy2_parent _ _ _ _ hc
  · intro hE hb h
    rw [executeAction_copyToSource source target a fs h] at hE
    split at hE
    · injection hE with h1 h2
      rw [← h1] at hb
      exact Bool.noConfusion hb
    · next fs1 hm =>
        split at hE
        · injection hE with h1 h2
          rw [← h1] at hb
          exact Bool.noConfusion hb
        · next fs2 hc =>
            injection hE with h1 h2
            rw [← h2, copy2_dirs _ _ _ _ hc]
            exact copy2_parent _ _ _ _ hc

end DirSync
